import Mathlib

/-! Verification of the gymbros fitness-tracker logic: the session-duration
calculator, the personal-record aggregator, the body-weight logger and the
fixed-width table renderer, embedded from `gymbros.py`.
-/

namespace GymBros

/-! Section: Duration calculator

`session_end` and `history` in `gymbros.py` both compute a session duration
from two wall-clock times-of-day: combine both with a common reference date,
and if the end instant is earlier than the start instant, shift by one day
(`history` adds a day to the end, `session_end` subtracts a day from the
start — the difference is the same); the duration is
`(t_end - t_start).seconds // 60`.
-/

/-- A wall-clock time-of-day, as produced by `datetime.strptime(_, "%H:%M:%S").time()`
or `(datetime.min + timedelta).time()`. -/
structure TimeOfDay where
  hour : Nat
  minute : Nat
  second : Nat
deriving DecidableEq, Repr

/-- Seconds since midnight of a time-of-day; the difference of the two
combined instants in `session_end`/`history` is the difference of these. -/
def TimeOfDay.toSecs (t : TimeOfDay) : Nat :=
  t.hour * 3600 + t.minute * 60 + t.second

/-- The range invariant of a Python `datetime.time` value. -/
def TimeOfDay.valid (t : TimeOfDay) : Prop :=
  t.hour < 24 ∧ t.minute < 60 ∧ t.second < 60

instance : DecidablePred TimeOfDay.valid := fun t => by
  unfold TimeOfDay.valid; infer_instance

/-- The duration computation of `gymbros.py` (`session_end` lines 418-424,
`history` lines 600-605): both times are combined with the same date; if the
end instant is strictly earlier than the start instant, one day (86400 s) is
shifted (`t_end += timedelta(days=1)` resp. `start_dt -= timedelta(days=1)`);
the result is `(t_end - t_start).seconds // 60`, integer division flooring. -/
def elapsed_minutes (start finish : TimeOfDay) : Nat :=
  let s := start.toSecs
  let e := finish.toSecs
  let e' := if e < s then e + 86400 else e
  (e' - s) / 60

/-- Split a character list at every `':'`, like Python's split on the colons
of the `"%H:%M:%S"` format. -/
def splitColon : List Char → List (List Char)
  | [] => [[]]
  | c :: rest =>
    if c = ':' then [] :: splitColon rest
    else
      match splitColon rest with
      | [] => [[c]]
      | field :: more => (c :: field) :: more

/-- One numeric field accepted by `strptime` with `%H`/`%M`/`%S`:
one or two decimal digits, read as a decimal number. -/
def parseField (cs : List Char) : Option Nat :=
  if cs.length = 0 ∨ 2 < cs.length ∨ ¬ cs.all (fun c => c.isDigit) then none
  else some (cs.foldl (fun n c => n * 10 + (c.toNat - 48)) 0)

/-- Model of `datetime.strptime(s, "%H:%M:%S").time()` as used by
`session_end` (line 413) and `safe_time_parse` (line 588): exactly three
colon-separated one-or-two-digit fields in the ranges of a `datetime.time`;
anything else raises `ValueError`, modelled as `none`. -/
def parseTimeOfDay (s : String) : Option TimeOfDay :=
  match splitColon s.toList with
  | [hs, ms, ss] =>
    match parseField hs, parseField ms, parseField ss with
    | some h, some m, some sec =>
      if h ≤ 23 ∧ m ≤ 59 ∧ sec ≤ 59 then some ⟨h, m, sec⟩ else none
    | _, _, _ => none
  | _ => none

/-- A stored `start_time`/`end_time` value as the database driver returns it:
either a `timedelta` (a MySQL `TIME` column) or some other value handled via
`str(...)` and `strptime`. -/
inductive StoredTime where
  | timedelta (secs : Nat)
  | string (s : String)
deriving DecidableEq, Repr

/-- Model of `(datetime.min + timedelta).time()`: the time-of-day reached `secs`
seconds after midnight, wrapping every 86400 seconds. -/
def timeFromTimedelta (secs : Nat) : TimeOfDay :=
  let r := secs % 86400
  ⟨r / 3600, r % 3600 / 60, r % 60⟩

/-- The helper `safe_time_parse` of `history` (lines 582-588): a `timedelta` becomes
`(datetime.min + value).time()`, anything else goes through `strptime`,
whose `ValueError` is modelled as `none`. -/
def safe_time_parse : StoredTime → Option TimeOfDay
  | .timedelta d => some (timeFromTimedelta d)
  | .string s => parseTimeOfDay s

/-- The duration part of the `session_end` command (lines 406-424): parse the
stored start value, and on a parse failure reply with the error message and
stop instead of crashing; otherwise compute `elapsed_minutes` against now. -/
def session_end_duration (startVal : StoredTime) (now : TimeOfDay) :
    Except String Nat :=
  match startVal with
  | .timedelta d => .ok (elapsed_minutes (timeFromTimedelta d) now)
  | .string s =>
    match parseTimeOfDay s with
    | some t => .ok (elapsed_minutes t now)
    | none => .error "Error parsing start time. Cannot calculate duration."

/-- The duration cell of one `history` row (lines 593-608): `duration`
starts as `"-"` and is replaced by the computed minutes only if both stored
times parse; any exception leaves the placeholder in place. -/
def history_duration_cell (startVal endVal : StoredTime) : String :=
  match safe_time_parse startVal, safe_time_parse endVal with
  | some st, some et => toString (elapsed_minutes st et)
  | _, _ => "-"

/-! Section: Record aggregator

`get_personal_records` (lines 180-200) runs one SQL query over the
`weightlift_logs` table (the single user's lift entries): group by
`exercise_name`, take `MAX(weight)` per group, pick the group's record date
by `SELECT date ... WHERE exercise_name = w.exercise_name AND weight =
MAX(w.weight) ORDER BY date DESC LIMIT 1`, and sort the output by
`max_weight DESC`. The embedding runs over the list of table rows.
-/

/-- One row of `weightlift_logs` as far as the query reads it
(`weight` is an `int` per `add_weightlift_db`; dates are totally ordered,
modelled as day numbers). -/
structure LiftEntry where
  exercise_name : String
  weight : Int
  date : Nat
deriving DecidableEq, Repr

/-- The aggregate `MAX(weight)` over a group of rows (`0` only for the empty group, which
the query never produces). -/
def maxWeight (grp : List LiftEntry) : Int :=
  ((grp.map (·.weight)).maximum).getD 0

/-- The correlated subquery `SELECT date ... WHERE ... weight = MAX(w.weight)
ORDER BY date DESC LIMIT 1`: the latest date among the group's rows at the
maximum weight. -/
def prDate (grp : List LiftEntry) (mw : Int) : Nat :=
  (((grp.filter (fun e => e.weight = mw)).map (·.date)).maximum).getD 0

/-- The output row the query produces for one exercise name: the name, its
group's maximum weight, and the subquery's date. `GROUP BY` compares
`exercise_name` by exact string equality. -/
def recordFor (logs : List LiftEntry) (n : String) : String × Int × Nat :=
  let grp := logs.filter (fun e => e.exercise_name = n)
  let mw := maxWeight grp
  (n, mw, prDate grp mw)

/-- The `ORDER BY max_weight DESC` ordering on output rows. -/
def prOrder (a b : String × Int × Nat) : Prop := b.2.1 ≤ a.2.1

instance : DecidableRel prOrder := fun a b => by
  unfold prOrder; infer_instance

instance : IsTotal (String × Int × Nat) prOrder :=
  ⟨fun a b => le_total b.2.1 a.2.1⟩

instance : IsTrans (String × Int × Nat) prOrder :=
  ⟨fun _ _ _ hab hbc => le_trans hbc hab⟩

/-- The query of `get_personal_records` (lines 180-200): one output row per distinct
`exercise_name` in the table, sorted descending by the group's maximum
weight. -/
def get_personal_records (logs : List LiftEntry) : List (String × Int × Nat) :=
  ((logs.map (·.exercise_name)).dedup.map (recordFor logs)).insertionSort prOrder

/-! Section: Weight logging -/

/-- Python `int(...)` applied to a numeric value: truncation toward zero.
Weights are modelled as rationals. -/
def pyIntTrunc (q : ℚ) : ℤ := if 0 ≤ q then ⌊q⌋ else ⌈q⌉

/-- The `weight_kg` value that `log_weight_db` (lines 204-219) binds into
`INSERT INTO weight_check ...`: `int(weight_kg)`. -/
def log_weight_db_stored (weight_kg : ℚ) : ℤ := pyIntTrunc weight_kg

/-! Section: Table renderer (`create_table`, lines 270-309) -/

/-- One cell passed to `create_table`: textual, numeric, or Python `None`. -/
inductive Cell where
  | str (s : String)
  | num (n : Int)
  | null
deriving DecidableEq, Repr

/-- The row preprocessing (line 275): `str(cell) if cell is not None else "-"`. -/
def renderCell : Cell → String
  | .str s => s
  | .num n => toString n
  | .null => "-"

/-- Python `sep.join(parts)`. -/
def strJoin (sep : String) : List String → String
  | [] => ""
  | [s] => s
  | s :: t :: rest => s ++ sep ++ strJoin sep (t :: rest)

/-- The width-update loop body (lines 279-281): for each cell of a row, in
index order, `col_widths[i] = max(col_widths[i], len(cell))`; a row with
more cells than there are widths raises `IndexError`, modelled as the error
case. -/
def updateWidths : List Nat → List String → Except Unit (List Nat)
  | ws, [] => .ok ws
  | [], _ :: _ => .error ()
  | w :: ws, c :: cs =>
    match updateWidths ws cs with
    | .ok rest => .ok (max w c.length :: rest)
    | .error e => .error e

/-- Lines 278-281: widths start at the header lengths and are folded over
every processed row. -/
def computeWidths (headers : List String) (prows : List (List String)) :
    Except Unit (List Nat) :=
  prows.foldlM updateWidths (headers.map String.length)

/-- The helper `make_line` (lines 284-285): `left + mid.join(fill * (w + 2) for w) + right`. -/
def makeLine (left mid right : String) (fill : Char) (ws : List Nat) : String :=
  left ++ strJoin mid (ws.map (fun w => String.mk (List.replicate (w + 2) fill))) ++ right

/-- Python `f"{s:<{w}}"`: pad `s` on the right to width `w`, never truncating. -/
def leftJust (s : String) (w : Nat) : String :=
  s ++ String.mk (List.replicate (w - s.length) ' ')

/-- Header and data rows (lines 295-305): start from `"│"` and append
`f" {cell:<{w}} │"` per cell, pairing cells with widths by index. A row
longer than the widths never reaches this point, because the width pass
already raised for it. -/
def renderRowLine (ws : List Nat) (cells : List String) : String :=
  "│" ++ strJoin "" (List.zipWith (fun c w => " " ++ leftJust c w ++ " │") cells ws)

/-- The body of `create_table` as the list `lines` it builds before the final join
(lines 292-308): top border, header, separator, one line per data row,
bottom border. -/
def createTableLines (headers : List String) (rows : List (List Cell)) :
    Except Unit (List String) :=
  let processed := rows.map (fun row => row.map renderCell)
  match computeWidths headers processed with
  | .error e => .error e
  | .ok ws =>
    .ok ([makeLine "┌" "┬" "┐" '─' ws, renderRowLine ws headers,
          makeLine "├" "┼" "┤" '─' ws]
         ++ processed.map (renderRowLine ws)
         ++ [makeLine "└" "┴" "┘" '─' ws])

/-- The full `create_table` (lines 270-309): the joined `"\n".join(lines)` result. -/
def create_table (headers : List String) (rows : List (List Cell)) :
    Except Unit String :=
  (createTableLines headers rows).map (strJoin "\n")

/-- Spec-side column width, clearly separate from the code's fold: the
maximum of the header's length and of every rendered cell's length in that
column, computed independently per column. -/
def specColWidth (headers : List String) (prows : List (List String)) (i : Nat) : Nat :=
  max (headers.getD i "").length
    ((prows.map (fun r => (r.getD i "").length)).foldr max 0)

/-! Section: Supporting lemmas about the width pass of `create_table` -/

/-- The pure effect of one width-update loop iteration on a row that fits:
pointwise `max` of the widths with the cell lengths. -/
def widthStep (acc : List Nat) (r : List String) : List Nat :=
  List.zipWith (fun w c => max w c.length) acc r

theorem updateWidths_ok_length :
    ∀ (row : List String) (ws ws' : List Nat),
      updateWidths ws row = Except.ok ws' → ws'.length = ws.length := by
  intro row
  induction row with
  | nil =>
    intro ws ws' h
    simp only [updateWidths] at h
    cases h
    rfl
  | cons c cs ih =>
    intro ws ws' h
    cases ws with
    | nil => exact Except.noConfusion h
    | cons w ws =>
      simp only [updateWidths] at h
      cases hrec : updateWidths ws cs with
      | error e => rw [hrec] at h; exact Except.noConfusion h
      | ok rest =>
        rw [hrec] at h
        cases h
        simp [ih ws rest hrec]

theorem updateWidths_error_iff :
    ∀ (row : List String) (ws : List Nat),
      updateWidths ws row = Except.error () ↔ ws.length < row.length := by
  intro row
  induction row with
  | nil => intro ws; simp [updateWidths]
  | cons c cs ih =>
    intro ws
    cases ws with
    | nil => simp [updateWidths]
    | cons w ws =>
      simp only [updateWidths]
      cases hrec : updateWidths ws cs with
      | error e =>
        cases e
        simp only [hrec, List.length_cons, Nat.succ_lt_succ_iff]
        simp [(ih ws).mp hrec]
      | ok rest =>
        simp only [hrec, List.length_cons, Nat.succ_lt_succ_iff]
        constructor
        · intro h; exact Except.noConfusion h
        · intro hlt
          have := (ih ws).mpr hlt
          rw [this] at hrec
          exact Except.noConfusion hrec

theorem updateWidths_eq_widthStep :
    ∀ (row : List String) (ws : List Nat), row.length = ws.length →
      updateWidths ws row = Except.ok (widthStep ws row) := by
  intro row
  induction row with
  | nil =>
    intro ws h
    cases ws with
    | nil => rfl
    | cons w ws => exact absurd h (by simp)
  | cons c cs ih =>
    intro ws h
    cases ws with
    | nil => exact absurd h (by simp)
    | cons w ws =>
      simp only [updateWidths, widthStep, List.zipWith]
      rw [ih ws (by simpa using h)]
      rfl

theorem widthStep_length (r : List String) (ws : List Nat)
    (h : r.length = ws.length) : (widthStep ws r).length = ws.length := by
  simp [widthStep, List.length_zipWith, h]

theorem foldlM_updateWidths_eq (prows : List (List String)) :
    ∀ (ws : List Nat), (∀ r ∈ prows, r.length = ws.length) →
      List.foldlM updateWidths ws prows = Except.ok (prows.foldl widthStep ws) := by
  induction prows with
  | nil => intro ws _; rfl
  | cons r rs ih =>
    intro ws h
    have hr : r.length = ws.length := h r (by simp)
    rw [List.foldlM_cons, updateWidths_eq_widthStep r ws hr]
    have hlen := widthStep_length r ws hr
    have hrest : ∀ r' ∈ rs, r'.length = (widthStep ws r).length := by
      intro r' hr'
      rw [hlen]
      exact h r' (by simp [hr'])
    show List.foldlM updateWidths (widthStep ws r) rs = _
    rw [ih (widthStep ws r) hrest, List.foldl_cons]

theorem foldl_widthStep_length (prows : List (List String)) :
    ∀ (ws : List Nat), (∀ r ∈ prows, r.length = ws.length) →
      (prows.foldl widthStep ws).length = ws.length := by
  induction prows with
  | nil => intro ws _; rfl
  | cons r rs ih =>
    intro ws h
    have hr : r.length = ws.length := h r (by simp)
    have hlen := widthStep_length r ws hr
    rw [List.foldl_cons, ih (widthStep ws r) ?_, hlen]
    intro r' hr'
    rw [hlen]
    exact h r' (by simp [hr'])

theorem getD_widthStep (r : List String) :
    ∀ (ws : List Nat) (i : Nat), r.length = ws.length →
      (widthStep ws r).getD i 0 = max (ws.getD i 0) ((r.getD i "").length) := by
  induction r with
  | nil =>
    intro ws i h
    cases ws with
    | nil => simp [widthStep]
    | cons w ws => exact absurd h (by simp)
  | cons c cs ih =>
    intro ws i h
    cases ws with
    | nil => exact absurd h (by simp)
    | cons w ws =>
      cases i with
      | zero => simp [widthStep]
      | succ n =>
        simp only [widthStep, List.zipWith, List.getD_cons_succ]
        exact ih ws n (by simpa using h)

theorem getD_map_length (r : List String) :
    ∀ i : Nat, (r.map String.length).getD i 0 = (r.getD i "").length := by
  induction r with
  | nil => intro i; simp
  | cons c cs ih =>
    intro i
    cases i with
    | zero => simp
    | succ n =>
      simp only [List.map_cons, List.getD_cons_succ]
      exact ih n

theorem foldl_widthStep_getD (prows : List (List String)) :
    ∀ (ws : List Nat) (i : Nat), (∀ r ∈ prows, r.length = ws.length) →
      (prows.foldl widthStep ws).getD i 0 =
        max (ws.getD i 0) ((prows.map (fun r => (r.getD i "").length)).foldr max 0) := by
  induction prows with
  | nil => intro ws i _; simp
  | cons r rs ih =>
    intro ws i h
    have hr : r.length = ws.length := h r (by simp)
    have hlen := widthStep_length r ws hr
    rw [List.foldl_cons, ih (widthStep ws r) i ?_, getD_widthStep r ws i hr,
      List.map_cons, List.foldr_cons, Nat.max_assoc]
    intro r' hr'
    rw [hlen]
    exact h r' (by simp [hr'])

theorem foldlM_updateWidths_ok_iff (prows : List (List String)) :
    ∀ (ws : List Nat),
      (∃ ws', List.foldlM updateWidths ws prows = Except.ok ws') ↔
        ∀ r ∈ prows, r.length ≤ ws.length := by
  induction prows with
  | nil => intro ws; simp; exact ⟨ws, rfl⟩
  | cons r rs ih =>
    intro ws
    rw [List.foldlM_cons]
    cases hrec : updateWidths ws r with
    | error e =>
      cases e
      have hlt : ws.length < r.length := (updateWidths_error_iff r ws).mp hrec
      constructor
      · rintro ⟨ws', hws'⟩
        exact Except.noConfusion (by simpa using hws')
      · intro h
        exact absurd (h r (by simp)) (by omega)
    | ok ws1 =>
      have hlen := updateWidths_ok_length r ws ws1 hrec
      have hle : r.length ≤ ws.length := by
        by_contra hlt
        push_neg at hlt
        rw [(updateWidths_error_iff r ws).mpr hlt] at hrec
        exact Except.noConfusion hrec
      have hbind : (Except.ok ws1 >>= fun x => List.foldlM updateWidths x rs) =
          List.foldlM updateWidths ws1 rs := rfl
      rw [hbind, ih ws1]
      constructor
      · intro h r' hr'
        rcases List.mem_cons.mp hr' with rfl | hmem
        · exact hle
        · exact le_trans (h r' hmem) (le_of_eq hlen)
      · intro h r' hr'
        exact le_trans (h r' (by simp [hr'])) (le_of_eq hlen.symm)

/-! Section: Supporting lemmas about rendered line lengths -/

theorem strJoin_length_one (sep : String) (hsep : sep.length = 1) :
    ∀ l : List String, l ≠ [] →
      (strJoin sep l).length = (l.map String.length).sum + (l.length - 1) := by
  intro l
  induction l with
  | nil => intro h; exact absurd rfl h
  | cons s rest ih =>
    intro _
    cases rest with
    | nil => simp [strJoin]
    | cons t more =>
      have htail := ih (by simp)
      simp only [strJoin, String.length_append, List.map_cons, List.sum_cons,
        List.length_cons, hsep] at htail ⊢
      omega

theorem strJoin_length_empty_sep :
    ∀ l : List String, (strJoin "" l).length = (l.map String.length).sum := by
  intro l
  induction l with
  | nil => rfl
  | cons s rest ih =>
    cases rest with
    | nil => simp [strJoin]
    | cons t more =>
      have h0 : ("" : String).length = 0 := rfl
      simp only [strJoin, String.length_append, List.map_cons, List.sum_cons,
        h0] at ih ⊢
      omega

theorem length_mk_replicate (n : Nat) (c : Char) :
    (String.mk (List.replicate n c)).length = n := by
  simp [String.length]

theorem sum_map_add_two (ws : List Nat) :
    (ws.map (fun w => w + 2)).sum = ws.sum + 2 * ws.length := by
  induction ws with
  | nil => rfl
  | cons w rest ih => simp [ih]; omega

theorem sum_map_add_three (ws : List Nat) :
    (ws.map (fun w => w + 3)).sum = ws.sum + 3 * ws.length := by
  induction ws with
  | nil => rfl
  | cons w rest ih => simp [ih]; omega

theorem makeLine_length (left mid right : String) (fill : Char) (ws : List Nat)
    (hl : left.length = 1) (hm : mid.length = 1) (hr : right.length = 1)
    (hne : ws ≠ []) :
    (makeLine left mid right fill ws).length = (ws.map (fun w => w + 3)).sum + 1 := by
  unfold makeLine
  have hpieces : (ws.map (fun w => String.mk (List.replicate (w + 2) fill))).map
      String.length = ws.map (fun w => w + 2) := by
    rw [List.map_map]
    exact List.map_congr_left (fun w _ => length_mk_replicate (w + 2) fill)
  have hpne : ws.map (fun w => String.mk (List.replicate (w + 2) fill)) ≠ [] := by
    simpa using hne
  rw [String.length_append, String.length_append,
    strJoin_length_one mid hm _ hpne, hpieces, hl, hr, sum_map_add_two,
    sum_map_add_three, List.length_map]
  have : ws.length ≠ 0 := fun h => hne (List.eq_nil_of_length_eq_zero h)
  omega

theorem cellPieces_sum (cells : List String) (ws : List Nat)
    (h : List.Forall₂ (fun (c : String) (w : Nat) => c.length ≤ w) cells ws) :
    ((List.zipWith (fun c w => " " ++ leftJust c w ++ " │") cells ws).map
        String.length).sum = (ws.map (fun w => w + 3)).sum := by
  induction h with
  | nil => rfl
  | @cons c w cs wst hcw htail ih =>
    have hpiece : (" " ++ leftJust c w ++ " │").length = w + 3 := by
      have h1 : (" " : String).length = 1 := rfl
      have h2 : (" │" : String).length = 2 := rfl
      have h3 : (leftJust c w).length = c.length + (w - c.length) := by
        simp [leftJust, String.length_append, length_mk_replicate]
      rw [String.length_append, String.length_append, h1, h2, h3]
      omega
    simp only [List.zipWith, List.map_cons, List.sum_cons, hpiece, ih]

theorem renderRowLine_length (cells : List String) (ws : List Nat)
    (h : List.Forall₂ (fun (c : String) (w : Nat) => c.length ≤ w) cells ws) :
    (renderRowLine ws cells).length = (ws.map (fun w => w + 3)).sum + 1 := by
  unfold renderRowLine
  have hbar : ("│" : String).length = 1 := rfl
  rw [String.length_append, hbar, strJoin_length_empty_sep, cellPieces_sum cells ws h]
  omega

theorem forall2_le_of_getD :
    ∀ (cells : List String) (ws : List Nat), cells.length = ws.length →
      (∀ i, (cells.getD i "").length ≤ ws.getD i 0) →
      List.Forall₂ (fun (c : String) (w : Nat) => c.length ≤ w) cells ws := by
  intro cells
  induction cells with
  | nil =>
    intro ws h _
    cases ws with
    | nil => exact List.Forall₂.nil
    | cons w wst => exact absurd h (by simp)
  | cons c cs ih =>
    intro ws h hb
    cases ws with
    | nil => exact absurd h (by simp)
    | cons w wst =>
      refine List.Forall₂.cons ?_ (ih wst (by simpa using h) (fun i => ?_))
      · simpa using hb 0
      · simpa using hb (i + 1)

theorem createTableLines_eq_of_ok (headers : List String)
    (rows : List (List Cell)) (ws : List Nat)
    (h : computeWidths headers (rows.map (fun row => row.map renderCell)) =
      Except.ok ws) :
    createTableLines headers rows = Except.ok
      ([makeLine "┌" "┬" "┐" '─' ws, renderRowLine ws headers,
        makeLine "├" "┼" "┤" '─' ws]
        ++ (rows.map (fun row => row.map renderCell)).map (renderRowLine ws)
        ++ [makeLine "└" "┴" "┘" '─' ws]) := by
  simp only [createTableLines]
  rw [h]

theorem le_foldr_max (l : List Nat) (a : Nat) (ha : a ∈ l) :
    a ≤ l.foldr max 0 := by
  induction l with
  | nil => cases ha
  | cons x xs ih =>
    rcases List.mem_cons.mp ha with rfl | hmem
    · exact le_max_left _ _
    · exact le_trans (ih hmem) (le_max_right _ _)

/-! Section: Claims about the duration calculator -/

/-- C1: for every pair of valid times-of-day with end at or after start on
the same day, the duration computation returns the elapsed seconds divided
by 60 and floored (`Nat` division), with no 24-hour adjustment applied. -/
theorem C1_same_day_duration (t1 t2 : TimeOfDay)
    (_h1 : t1.valid) (_h2 : t2.valid) (hle : t1.toSecs ≤ t2.toSecs) :
    elapsed_minutes t1 t2 = (t2.toSecs - t1.toSecs) / 60 := by
  unfold elapsed_minutes
  simp [Nat.not_lt.mpr hle]

/-- Witness for C1: 10:00:00 to 11:30:45 is 90 whole minutes. -/
theorem C1_same_day_duration_witness :
    TimeOfDay.valid ⟨10, 0, 0⟩ ∧ TimeOfDay.valid ⟨11, 30, 45⟩ ∧
    TimeOfDay.toSecs ⟨10, 0, 0⟩ ≤ TimeOfDay.toSecs ⟨11, 30, 45⟩ ∧
    elapsed_minutes ⟨10, 0, 0⟩ ⟨11, 30, 45⟩ = 90 :=
  ⟨by decide, by decide, by decide,
    (C1_same_day_duration ⟨10, 0, 0⟩ ⟨11, 30, 45⟩ (by decide) (by decide)
      (by decide)).trans (by decide)⟩

/-- C2: when the combined end instant is strictly earlier than the combined
start instant, the computation shifts the end instant by 24 hours (86400 s)
before taking the difference; in particular 23:50:00 to 00:10:00 gives 20
minutes. -/
theorem C2_midnight_rollover (t1 t2 : TimeOfDay)
    (_h1 : t1.valid) (_h2 : t2.valid) (hlt : t2.toSecs < t1.toSecs) :
    elapsed_minutes t1 t2 = (t2.toSecs + 86400 - t1.toSecs) / 60 ∧
    elapsed_minutes ⟨23, 50, 0⟩ ⟨0, 10, 0⟩ = 20 := by
  constructor
  · unfold elapsed_minutes
    simp [hlt]
  · decide

/-- Witness for C2 at the spec's own example, 23:50:00 to 00:10:00. -/
theorem C2_midnight_rollover_witness :
    TimeOfDay.valid ⟨23, 50, 0⟩ ∧ TimeOfDay.valid ⟨0, 10, 0⟩ ∧
    TimeOfDay.toSecs ⟨0, 10, 0⟩ < TimeOfDay.toSecs ⟨23, 50, 0⟩ ∧
    elapsed_minutes ⟨23, 50, 0⟩ ⟨0, 10, 0⟩ = 20 :=
  ⟨by decide, by decide, by decide,
    (C2_midnight_rollover ⟨23, 50, 0⟩ ⟨0, 10, 0⟩ (by decide) (by decide)
      (by decide)).2⟩

/-- C3: a stored start value that does not parse as a time-of-day makes the
duration operation fail with a parse error that the callers turn into a
degraded but non-fatal display: `session_end` returns its error message
instead of a duration, and `history` leaves the `"-"` placeholder in the
duration cell; neither crashes. -/
theorem C3_parse_error_handling (s : String) (now : TimeOfDay)
    (endVal : StoredTime) (h : parseTimeOfDay s = none) :
    session_end_duration (StoredTime.string s) now =
      Except.error "Error parsing start time. Cannot calculate duration." ∧
    history_duration_cell (StoredTime.string s) endVal = "-" := by
  constructor
  · unfold session_end_duration
    simp [h]
  · unfold history_duration_cell safe_time_parse
    simp [h]

/-- Witness for C3: the unparseable stored value `"banana"`. -/
theorem C3_parse_error_handling_witness :
    parseTimeOfDay "banana" = none ∧
    session_end_duration (StoredTime.string "banana") ⟨10, 0, 0⟩ =
      Except.error "Error parsing start time. Cannot calculate duration." ∧
    history_duration_cell (StoredTime.string "banana")
      (StoredTime.string "10:00:00") = "-" :=
  ⟨by decide,
    (C3_parse_error_handling "banana" ⟨10, 0, 0⟩
      (StoredTime.string "10:00:00") (by decide)).1,
    (C3_parse_error_handling "banana" ⟨10, 0, 0⟩
      (StoredTime.string "10:00:00") (by decide)).2⟩

/-! Section: Claim about weight logging -/

/-- C10: the value `log_weight_db` stores is `int(weight_kg)`: for
non-negative weights this is the floor (the fractional part is dropped), in
general the fraction is truncated toward zero; logging 75.9 kg stores 75. -/
theorem C10_weight_truncated (w : ℚ) (h0 : 0 ≤ w) :
    ((log_weight_db_stored w : ℚ) = w - Int.fract w ∧
      log_weight_db_stored w = ⌊w⌋) ∧
    log_weight_db_stored (759 / 10) = 75 ∧
    log_weight_db_stored (-(5 / 2)) = -2 := by
  refine ⟨⟨?_, ?_⟩, ?_, ?_⟩
  · unfold log_weight_db_stored pyIntTrunc
    rw [if_pos h0]
    exact_mod_cast (Int.self_sub_fract w).symm
  · unfold log_weight_db_stored pyIntTrunc
    rw [if_pos h0]
  · unfold log_weight_db_stored pyIntTrunc
    rw [if_pos (by norm_num), Int.floor_eq_iff]
    norm_num
  · unfold log_weight_db_stored pyIntTrunc
    rw [if_neg (by norm_num), Int.ceil_eq_iff]
    norm_num

/-- Witness for C10: logging 75.9 kg records 75. -/
theorem C10_weight_truncated_witness :
    (0 : ℚ) ≤ 759 / 10 ∧ log_weight_db_stored (759 / 10) = 75 :=
  ⟨by norm_num, (C10_weight_truncated (759 / 10) (by norm_num)).2.1⟩

/-! Section: Claims about the table renderer -/

/-- Counterexample to C6: `create_table` called with two headers and a row
of only one cell does not raise anything — it silently renders the short
row, returning a (misaligned) table. -/
theorem C6_counterexample :
    create_table ["A", "B"] [[Cell.str "x"]] =
      Except.ok "┌───┬───┐\n│ A │ B │\n├───┼───┤\n│ x │\n└───┴───┘" ∧
    create_table ["A", "B"] [[Cell.str "x"]] ≠ Except.error () := by
  have h1 : create_table ["A", "B"] [[Cell.str "x"]] =
      Except.ok "┌───┬───┐\n│ A │ B │\n├───┼───┤\n│ x │\n└───┴───┘" := rfl
  exact ⟨h1, fun h => Except.noConfusion (h1.symm.trans h)⟩

/-- C6 as amended: `create_table` performs no shape check at all. It
succeeds exactly when every row has at most as many cells as there are
headers — a row with fewer cells is rendered silently with only its cells —
and a row with more cells than headers makes the width loop fail with an
`IndexError` (a generic exception, not a dedicated `ShapeError`). -/
theorem C6_no_shape_check (headers : List String) (rows : List (List Cell)) :
    (∃ s, create_table headers rows = Except.ok s) ↔
      ∀ row ∈ rows, row.length ≤ headers.length := by
  have hkey := foldlM_updateWidths_ok_iff
    (rows.map (fun row => row.map renderCell)) (headers.map String.length)
  constructor
  · rintro ⟨s, hs⟩ row hrow
    simp only [create_table, createTableLines] at hs
    cases hcw : computeWidths headers (rows.map (fun row => row.map renderCell)) with
    | error e =>
      rw [hcw] at hs
      exact Except.noConfusion hs
    | ok ws =>
      have hex : ∃ ws', List.foldlM updateWidths (headers.map String.length)
          (rows.map (fun row => row.map renderCell)) = Except.ok ws' := ⟨ws, hcw⟩
      have hall := hkey.mp hex
      have := hall (row.map renderCell) (List.mem_map_of_mem _ hrow)
      simpa using this
  · intro h
    have hall : ∀ r ∈ rows.map (fun row => row.map renderCell),
        r.length ≤ (headers.map String.length).length := by
      intro r hr
      rcases List.mem_map.mp hr with ⟨row, hrow, rfl⟩
      simpa using h row hrow
    rcases hkey.mpr hall with ⟨ws, hws⟩
    refine ⟨?_, ?_⟩
    · exact strJoin "\n"
        ([makeLine "┌" "┬" "┐" '─' ws,
          renderRowLine ws headers, makeLine "├" "┼" "┤" '─' ws]
         ++ (rows.map (fun row => row.map renderCell)).map (renderRowLine ws)
         ++ [makeLine "└" "┴" "┘" '─' ws])
    · simp only [create_table, createTableLines, computeWidths]
      rw [hws]
      rfl

/-- C8: with a non-empty header list and zero data rows, `create_table`
builds exactly four lines — top border, header row, separator, bottom
border — and no body lines. -/
theorem C8_zero_rows (headers : List String) (_h : headers ≠ []) :
    createTableLines headers [] =
      Except.ok [makeLine "┌" "┬" "┐" '─' (headers.map String.length),
        renderRowLine (headers.map String.length) headers,
        makeLine "├" "┼" "┤" '─' (headers.map String.length),
        makeLine "└" "┴" "┘" '─' (headers.map String.length)] := by
  simp only [createTableLines, computeWidths, List.map_nil, List.foldlM_nil]
  rfl

/-- Witness for C8: `["A", "B"]` with no rows gives the four-line table. -/
theorem C8_zero_rows_witness :
    (["A", "B"] : List String) ≠ [] ∧
    createTableLines ["A", "B"] [] =
      Except.ok ["┌───┬───┐", "│ A │ B │", "├───┼───┤", "└───┴───┘"] := by
  refine ⟨by decide, ?_⟩
  rw [C8_zero_rows ["A", "B"] (by decide)]
  rfl

/-- Counterexample to C9: with an empty header list (the claim quantifies
over every table, and the all-rows-match-the-header-count condition holds
vacuously), the rendered lines do not share one width: the borders are two
characters wide but the header row is one. -/
theorem C9_counterexample :
    createTableLines ([] : List String) ([] : List (List Cell)) =
      Except.ok ["┌┐", "│", "├┤", "└┘"] ∧
    ("┌┐" : String).length ≠ ("│" : String).length := by
  exact ⟨rfl, by decide⟩

/-- C7: for well-shaped input, each column width the renderer computes is
the maximum of the header's length and every rendered cell's length in that
column, independently per column; a `None` cell renders as the placeholder
`"-"`; and cell content is left-aligned — the content first, then the
padding spaces — inside one space of padding on each side, the rendered
table being assembled from exactly these widths. -/
theorem C7_widths_placeholder_alignment (headers : List String)
    (rows : List (List Cell))
    (hshape : ∀ row ∈ rows, row.length = headers.length) :
    ∃ ws, computeWidths headers (rows.map (fun row => row.map renderCell)) =
        Except.ok ws
      ∧ ws.length = headers.length
      ∧ (∀ i, ws.getD i 0 =
          specColWidth headers (rows.map (fun row => row.map renderCell)) i)
      ∧ renderCell Cell.null = "-"
      ∧ (∀ (c : String) (w : Nat), c.length ≤ w →
          leftJust c w = c ++ String.mk (List.replicate (w - c.length) ' ') ∧
          (leftJust c w).length = w)
      ∧ createTableLines headers rows = Except.ok
          ([makeLine "┌" "┬" "┐" '─' ws, renderRowLine ws headers,
            makeLine "├" "┼" "┤" '─' ws]
            ++ (rows.map (fun row => row.map renderCell)).map (renderRowLine ws)
            ++ [makeLine "└" "┴" "┘" '─' ws]) := by
  have hshape' : ∀ r ∈ rows.map (fun row => row.map renderCell),
      r.length = (headers.map String.length).length := by
    intro r hr
    rcases List.mem_map.mp hr with ⟨row, hrow, rfl⟩
    simpa using hshape row hrow
  have hok : computeWidths headers (rows.map (fun row => row.map renderCell)) =
      Except.ok ((rows.map (fun row => row.map renderCell)).foldl widthStep
        (headers.map String.length)) :=
    foldlM_updateWidths_eq _ _ hshape'
  refine ⟨_, hok, ?_, ?_, rfl, ?_, ?_⟩
  · rw [foldl_widthStep_length _ _ hshape']
    simp
  · intro i
    rw [foldl_widthStep_getD _ _ i hshape', getD_map_length]
    rfl
  · intro c w hcw
    refine ⟨rfl, ?_⟩
    have : (leftJust c w).length = c.length + (w - c.length) := by
      simp [leftJust, String.length_append, length_mk_replicate]
    omega
  · simp only [createTableLines]
    rw [hok]

/-- Witness for C7 at headers `["A", "B"]` and the single row
`[Cell.str "xx", Cell.null]`. -/
theorem C7_widths_placeholder_alignment_witness :
    ∃ ws, computeWidths ["A", "B"]
        ([[Cell.str "xx", Cell.null]].map (fun row => row.map renderCell)) =
        Except.ok ws
      ∧ ws.length = (["A", "B"] : List String).length
      ∧ (∀ i, ws.getD i 0 = specColWidth ["A", "B"]
          ([[Cell.str "xx", Cell.null]].map (fun row => row.map renderCell)) i)
      ∧ renderCell Cell.null = "-"
      ∧ (∀ (c : String) (w : Nat), c.length ≤ w →
          leftJust c w = c ++ String.mk (List.replicate (w - c.length) ' ') ∧
          (leftJust c w).length = w)
      ∧ createTableLines ["A", "B"] [[Cell.str "xx", Cell.null]] = Except.ok
          ([makeLine "┌" "┬" "┐" '─' ws, renderRowLine ws ["A", "B"],
            makeLine "├" "┼" "┤" '─' ws]
            ++ (([[Cell.str "xx", Cell.null]] : List (List Cell)).map
                (fun row => row.map renderCell)).map (renderRowLine ws)
            ++ [makeLine "└" "┴" "┘" '─' ws]) :=
  C7_widths_placeholder_alignment ["A", "B"] [[Cell.str "xx", Cell.null]]
    (by decide)

/-- C9 as amended: for a non-empty header sequence and rows whose cell
counts all equal the header count, every rendered line — borders, header
row and every data row — has the same character width. -/
theorem C9_grid_alignment (headers : List String) (rows : List (List Cell))
    (hne : headers ≠ []) (hshape : ∀ row ∈ rows, row.length = headers.length) :
    ∃ lines, createTableLines headers rows = Except.ok lines ∧
      ∀ l1 ∈ lines, ∀ l2 ∈ lines, l1.length = l2.length := by
  have hshape' : ∀ r ∈ rows.map (fun row => row.map renderCell),
      r.length = (headers.map String.length).length := by
    intro r hr
    rcases List.mem_map.mp hr with ⟨row, hrow, rfl⟩
    simpa using hshape row hrow
  set prows := rows.map (fun row => row.map renderCell) with hprows
  set ws := prows.foldl widthStep (headers.map String.length) with hws
  have hok : computeWidths headers prows = Except.ok ws :=
    foldlM_updateWidths_eq _ _ hshape'
  have hwslen : ws.length = headers.length := by
    rw [hws, foldl_widthStep_length _ _ hshape']
    simp
  have hwsne : ws ≠ [] := by
    intro h
    exact hne (List.eq_nil_of_length_eq_zero (by rw [← hwslen, h]; rfl))
  have hgetD : ∀ i, ws.getD i 0 = specColWidth headers prows i := by
    intro i
    rw [hws, foldl_widthStep_getD _ _ i hshape', getD_map_length]
    rfl
  have hheadb : ∀ i, (headers.getD i "").length ≤ ws.getD i 0 := by
    intro i
    rw [hgetD i]
    exact le_max_left _ _
  have hcellb : ∀ r ∈ prows, ∀ i, (r.getD i "").length ≤ ws.getD i 0 := by
    intro r hr i
    rw [hgetD i]
    refine le_trans ?_ (le_max_right _ _)
    exact le_foldr_max _ _ (List.mem_map_of_mem (fun r => (r.getD i "").length) hr)
  have hL : ∀ l ∈ ([makeLine "┌" "┬" "┐" '─' ws, renderRowLine ws headers,
      makeLine "├" "┼" "┤" '─' ws] ++ prows.map (renderRowLine ws)
      ++ [makeLine "└" "┴" "┘" '─' ws]),
      l.length = (ws.map (fun w => w + 3)).sum + 1 := by
    intro l hl
    simp only [List.mem_append, List.mem_cons, List.mem_singleton,
      List.mem_map, List.not_mem_nil, or_false] at hl
    rcases hl with ((rfl | rfl | rfl) | ⟨r, hr, rfl⟩) | rfl
    · exact makeLine_length _ _ _ _ _ rfl rfl rfl hwsne
    · exact renderRowLine_length headers ws
        (forall2_le_of_getD headers ws hwslen.symm hheadb)
    · exact makeLine_length _ _ _ _ _ rfl rfl rfl hwsne
    · exact renderRowLine_length r ws
        (forall2_le_of_getD r ws (by rw [hshape' r hr]; simp [hwslen])
          (hcellb r hr))
    · exact makeLine_length _ _ _ _ _ rfl rfl rfl hwsne
  refine ⟨_, createTableLines_eq_of_ok headers rows ws hok, ?_⟩
  intro l1 h1 l2 h2
  rw [hL l1 h1, hL l2 h2]

/-- Witness for C9 at headers `["A", "B"]` and one well-shaped row. -/
theorem C9_grid_alignment_witness :
    ∃ lines, createTableLines ["A", "B"] [[Cell.str "x", Cell.null]] =
        Except.ok lines ∧
      ∀ l1 ∈ lines, ∀ l2 ∈ lines, l1.length = l2.length :=
  C9_grid_alignment ["A", "B"] [[Cell.str "x", Cell.null]] (by decide) (by decide)

/-! Section: Supporting lemmas about the record aggregator -/

theorem maxWeight_spec (grp : List LiftEntry) (hne : grp ≠ []) :
    (∃ e ∈ grp, e.weight = maxWeight grp) ∧
    ∀ e ∈ grp, e.weight ≤ maxWeight grp := by
  have hmapne : grp.map (fun e => e.weight) ≠ [] := by simpa using hne
  rcases WithBot.ne_bot_iff_exists.mp
    (List.maximum_ne_bot_of_ne_nil hmapne) with ⟨m, hm⟩
  have hmax := List.maximum_eq_coe_iff.mp hm.symm
  have hval : maxWeight grp = m := by
    unfold maxWeight
    rw [← hm]
    rfl
  constructor
  · rcases List.mem_map.mp hmax.1 with ⟨e, he, hew⟩
    exact ⟨e, he, by rw [hew, hval]⟩
  · intro e he
    rw [hval]
    exact hmax.2 _ (List.mem_map_of_mem _ he)

theorem prDate_spec (grp : List LiftEntry) (mw : Int)
    (hne : grp.filter (fun e => e.weight = mw) ≠ []) :
    (∃ e ∈ grp, e.weight = mw ∧ e.date = prDate grp mw) ∧
    ∀ e ∈ grp, e.weight = mw → e.date ≤ prDate grp mw := by
  have hmapne : (grp.filter (fun e => e.weight = mw)).map (fun e => e.date) ≠ [] := by
    simpa using hne
  rcases WithBot.ne_bot_iff_exists.mp
    (List.maximum_ne_bot_of_ne_nil hmapne) with ⟨d, hd⟩
  have hmax := List.maximum_eq_coe_iff.mp hd.symm
  have hval : prDate grp mw = d := by
    unfold prDate
    rw [← hd]
    rfl
  constructor
  · rcases List.mem_map.mp hmax.1 with ⟨e, he, hed⟩
    rcases List.mem_filter.mp he with ⟨hegrp, hew⟩
    exact ⟨e, hegrp, by simpa using hew, by rw [hed, hval]⟩
  · intro e he hew
    rw [hval]
    exact hmax.2 _ (List.mem_map_of_mem _
      (List.mem_filter.mpr ⟨he, by simpa using hew⟩))

theorem recordFor_spec (logs : List LiftEntry) (n : String)
    (hex : ∃ e ∈ logs, e.exercise_name = n) :
    (∃ e ∈ logs, e.exercise_name = n ∧ e.weight = (recordFor logs n).2.1 ∧
        e.date = (recordFor logs n).2.2) ∧
    (∀ e ∈ logs, e.exercise_name = n → e.weight ≤ (recordFor logs n).2.1) ∧
    (∀ e ∈ logs, e.exercise_name = n → e.weight = (recordFor logs n).2.1 →
        e.date ≤ (recordFor logs n).2.2) := by
  rcases hex with ⟨e0, he0, hn0⟩
  have hgrp0 : e0 ∈ logs.filter (fun e => e.exercise_name = n) :=
    List.mem_filter.mpr ⟨he0, by simpa using hn0⟩
  have hgrpne : logs.filter (fun e => e.exercise_name = n) ≠ [] :=
    List.ne_nil_of_mem hgrp0
  have hw := maxWeight_spec _ hgrpne
  have hwfilter : (logs.filter (fun e => e.exercise_name = n)).filter
      (fun e => e.weight = maxWeight (logs.filter (fun e => e.exercise_name = n))) ≠ [] := by
    rcases hw.1 with ⟨em, hem, hwm⟩
    exact List.ne_nil_of_mem (List.mem_filter.mpr ⟨hem, by simpa using hwm⟩)
  have hd := prDate_spec _ _ hwfilter
  have hr1 : (recordFor logs n).2.1 =
      maxWeight (logs.filter (fun e => e.exercise_name = n)) := rfl
  have hr2 : (recordFor logs n).2.2 =
      prDate (logs.filter (fun e => e.exercise_name = n))
        (maxWeight (logs.filter (fun e => e.exercise_name = n))) := rfl
  refine ⟨?_, ?_, ?_⟩
  · rcases hd.1 with ⟨ed, hedgrp, hedw, hedd⟩
    rcases List.mem_filter.mp hedgrp with ⟨hedlogs, hedn⟩
    exact ⟨ed, hedlogs, by simpa using hedn, by rw [hr1]; exact hedw,
      by rw [hr2]; exact hedd⟩
  · intro e he hen
    rw [hr1]
    exact hw.2 e (List.mem_filter.mpr ⟨he, by simpa using hen⟩)
  · intro e he hen hew
    rw [hr2]
    refine hd.2 e (List.mem_filter.mpr ⟨he, by simpa using hen⟩) ?_
    rw [← hr1]
    exact hew

/-! Section: Claims about the record aggregator -/

/-- C4: `get_personal_records` produces exactly one output row per distinct
exercise name among the (single) owner's lift entries, grouped by exact
case-sensitive string equality on the name; each row carries the maximum
weight over its group, and the output is ordered descending by that maximum
weight. -/
theorem C4_records_grouped_max_sorted (logs : List LiftEntry) :
    (∀ n : String, (∃ r ∈ get_personal_records logs, r.1 = n) ↔
        ∃ e ∈ logs, e.exercise_name = n) ∧
    ((get_personal_records logs).map (fun r => r.1)).Nodup ∧
    (∀ r ∈ get_personal_records logs,
        (∃ e ∈ logs, e.exercise_name = r.1 ∧ e.weight = r.2.1) ∧
        (∀ e ∈ logs, e.exercise_name = r.1 → e.weight ≤ r.2.1)) ∧
    List.Sorted prOrder (get_personal_records logs) := by
  have hperm : List.Perm (get_personal_records logs)
      ((logs.map (fun e => e.exercise_name)).dedup.map (recordFor logs)) :=
    List.perm_insertionSort prOrder _
  refine ⟨?_, ?_, ?_, ?_⟩
  · intro n
    constructor
    · rintro ⟨r, hr, rfl⟩
      rcases List.mem_map.mp (hperm.mem_iff.mp hr) with ⟨m, hm, rfl⟩
      rcases List.mem_map.mp (List.mem_dedup.mp hm) with ⟨e, he, hne⟩
      exact ⟨e, he, hne⟩
    · rintro ⟨e, he, rfl⟩
      refine ⟨recordFor logs e.exercise_name, ?_, rfl⟩
      exact hperm.mem_iff.mpr (List.mem_map_of_mem _
        (List.mem_dedup.mpr (List.mem_map_of_mem _ he)))
  · have hmapeq : ((logs.map (fun e => e.exercise_name)).dedup.map
        (recordFor logs)).map (fun r => r.1) =
        (logs.map (fun e => e.exercise_name)).dedup := by
      rw [List.map_map]
      exact (List.map_congr_left (fun m _ => rfl)).trans (List.map_id _)
    refine (hperm.map (fun r => r.1)).nodup_iff.mpr ?_
    rw [hmapeq]
    exact List.nodup_dedup _
  · intro r hr
    rcases List.mem_map.mp (hperm.mem_iff.mp hr) with ⟨m, hm, rfl⟩
    have hex : ∃ e ∈ logs, e.exercise_name = m :=
      List.mem_map.mp (List.mem_dedup.mp hm)
    have hspec := recordFor_spec logs m hex
    constructor
    · rcases hspec.1 with ⟨e, he, hen, hew, _⟩
      exact ⟨e, he, hen, hew⟩
    · exact hspec.2.1
  · exact List.sorted_insertionSort prOrder _

/-- Witness for C4 at the spec's example entry list. -/
theorem C4_records_grouped_max_sorted_witness :
    get_personal_records [⟨"Bench Press", 100, 1⟩, ⟨"Bench Press", 120, 2⟩,
        ⟨"Squat", 140, 3⟩] =
      [("Squat", 140, 3), ("Bench Press", 120, 2)] ∧
    List.Sorted prOrder (get_personal_records [⟨"Bench Press", 100, 1⟩,
      ⟨"Bench Press", 120, 2⟩, ⟨"Squat", 140, 3⟩]) :=
  ⟨by decide, (C4_records_grouped_max_sorted [⟨"Bench Press", 100, 1⟩,
    ⟨"Bench Press", 120, 2⟩, ⟨"Squat", 140, 3⟩]).2.2.2⟩

/-- C5: in every output row of `get_personal_records`, the record date is
the most recent date among the owner's entries of that exercise that attain
the row's (maximum) weight — the behaviour of the correlated subquery's
`ORDER BY date DESC LIMIT 1`. -/
theorem C5_record_date_most_recent (logs : List LiftEntry)
    (r : String × Int × Nat) (hr : r ∈ get_personal_records logs) :
    (∃ e ∈ logs, e.exercise_name = r.1 ∧ e.weight = r.2.1 ∧ e.date = r.2.2) ∧
    (∀ e ∈ logs, e.exercise_name = r.1 → e.weight = r.2.1 →
      e.date ≤ r.2.2) := by
  have hperm : List.Perm (get_personal_records logs)
      ((logs.map (fun e => e.exercise_name)).dedup.map (recordFor logs)) :=
    List.perm_insertionSort prOrder _
  rcases List.mem_map.mp (hperm.mem_iff.mp hr) with ⟨m, hm, rfl⟩
  have hex : ∃ e ∈ logs, e.exercise_name = m :=
    List.mem_map.mp (List.mem_dedup.mp hm)
  have hspec := recordFor_spec logs m hex
  exact ⟨hspec.1, hspec.2.2⟩

/-- Witness for C5: two entries of `"A"` tie at weight 100 on days 5 and 9;
the record date is day 9, the most recent of the two. -/
theorem C5_record_date_most_recent_witness :
    (∃ e ∈ [(⟨"A", 100, 5⟩ : LiftEntry), ⟨"A", 100, 9⟩, ⟨"A", 90, 20⟩],
        e.exercise_name = (("A", 100, 9) : String × Int × Nat).1 ∧
        e.weight = (("A", 100, 9) : String × Int × Nat).2.1 ∧
        e.date = (("A", 100, 9) : String × Int × Nat).2.2) ∧
    (∀ e ∈ [(⟨"A", 100, 5⟩ : LiftEntry), ⟨"A", 100, 9⟩, ⟨"A", 90, 20⟩],
        e.exercise_name = (("A", 100, 9) : String × Int × Nat).1 →
        e.weight = (("A", 100, 9) : String × Int × Nat).2.1 →
        e.date ≤ (("A", 100, 9) : String × Int × Nat).2.2) :=
  C5_record_date_most_recent
    [⟨"A", 100, 5⟩, ⟨"A", 100, 9⟩, ⟨"A", 90, 20⟩] ("A", 100, 9) (by decide)

end GymBros
